import Mathlib

/-!
Verification of the lab-website data-refresh sync script
(`src/scripts/conversion.py`).

The script's logic is embedded shallowly:
* Python values flowing through documents are `PyVal` (string, int or
  `datetime`); a Python `dict` is an association list with
  first-occurrence lookup and in-place assignment (`setField`).
* `parse_year` / `parse_date` are translated from the source, including a
  faithful model of CPython `strptime` restricted to the six format
  strings the script uses (the `%Y`, `%m`, `%d`, `%B`, `%b` directives,
  with the digit-count and value-range behaviour of `_strptime.py`'s
  regexes, and `datetime` calendar validation afterwards).
* The row-mapping loop of `get_sheet_records` becomes `mapRow`; the
  MongoDB bulk upsert of `upsert_to_mongodb` becomes an explicit
  list-of-documents store with `UpdateOne`/`$set`/`upsert=True`
  semantics (`updateFirst`, `applyOp`, `bulkWrite`).
-/

set_option autoImplicit false

/-- A `datetime.datetime` as the script uses it: calendar date plus a
time-of-day (always midnight here) and whether `tzinfo=timezone.utc`
was attached. -/
structure PyDateTime where
  year : Nat
  month : Nat
  day : Nat
  hour : Nat
  minute : Nat
  second : Nat
  tzUtc : Bool
deriving DecidableEq, Repr

/-- A Python value stored in a document: the script only ever produces
strings, ints (from `parse_year`) and datetimes (from `parse_date` and
the `_syncedAt` stamp). -/
inductive PyVal where
  | str : String → PyVal
  | int : Int → PyVal
  | date : PyDateTime → PyVal
deriving DecidableEq, Repr

/-- Python `str.strip()`: drop whitespace from both ends. -/
def pyStrip (s : String) : String :=
  ⟨(((s.data.dropWhile Char.isWhitespace).reverse.dropWhile Char.isWhitespace).reverse)⟩

/-- Digit tail of CPython `int(...)`: digits with single underscores
allowed between digits only. `acc` holds the value parsed so far. -/
def pyIntDigits : List Char → Nat → Option Nat
  | [], acc => some acc
  | c :: cs, acc =>
    if c.isDigit then pyIntDigits cs (acc * 10 + (c.toNat - 48))
    else if c = '_' then
      match cs with
      | c2 :: cs2 =>
        if c2.isDigit then pyIntDigits cs2 (acc * 10 + (c2.toNat - 48)) else none
      | [] => none
    else none

/-- CPython `int(s)` on an already-stripped string: optional sign, at
least one digit, single underscores between digits; `none` models
`ValueError`. -/
def pyInt (s : String) : Option Int :=
  match s.data with
  | [] => none
  | ['+'] => none
  | ['-'] => none
  | '+' :: c :: cs =>
    if c.isDigit then (pyIntDigits cs (c.toNat - 48)).map Int.ofNat else none
  | '-' :: c :: cs =>
    if c.isDigit then (pyIntDigits cs (c.toNat - 48)).map (fun n => -(Int.ofNat n)) else none
  | c :: cs =>
    if c.isDigit then (pyIntDigits cs (c.toNat - 48)).map Int.ofNat else none

/-- `parse_year` from the source: `None` and the empty (stripped) string
give `""`; an integer parse failure also gives `""`; otherwise the int. -/
def parse_year : Option String → PyVal
  | none => .str ""
  | some v =>
    let s := pyStrip v
    if s = "" then .str ""
    else
      match pyInt s with
      | some n => .int n
      | none => .str ""

/-- A token of a compiled `strptime` format string. -/
inductive FmtTok where
  | lit : Char → FmtTok
  | ws : FmtTok
  | dy : FmtTok
  | dm : FmtTok
  | dd : FmtTok
  | db : FmtTok
  | dab : FmtTok
deriving DecidableEq, Repr

/-- Compile a format string to tokens: `%Y` `%m` `%d` `%B` `%b` become
directives, whitespace matches one-or-more whitespace, anything else is
a literal character. -/
def compileFmt : List Char → List FmtTok
  | [] => []
  | '%' :: c :: rest =>
    (if c = 'Y' then [FmtTok.dy]
     else if c = 'm' then [FmtTok.dm]
     else if c = 'd' then [FmtTok.dd]
     else if c = 'B' then [FmtTok.db]
     else if c = 'b' then [FmtTok.dab]
     else [FmtTok.lit c]) ++ compileFmt rest
  | c :: rest =>
    (if c.isWhitespace then FmtTok.ws else FmtTok.lit c) :: compileFmt rest

/-- The `%m` two-digit alternatives of `_strptime.py`'s regex
`1[0-2]|0[1-9]` (the one-digit `[1-9]` alternative is tried separately,
with backtracking). -/
def twoDigitM : List Char → Option (Nat × List Char)
  | a :: b :: rest =>
    if a = '1' ∧ '0' ≤ b ∧ b ≤ '2' then some (10 + (b.toNat - 48), rest)
    else if a = '0' ∧ '1' ≤ b ∧ b ≤ '9' then some (b.toNat - 48, rest)
    else none
  | _ => none

/-- The `%d` two-digit alternatives `3[01]|[12][0-9]|0[1-9]`. -/
def twoDigitD : List Char → Option (Nat × List Char)
  | a :: b :: rest =>
    if a = '3' ∧ (b = '0' ∨ b = '1') then some (30 + (b.toNat - 48), rest)
    else if (a = '1' ∨ a = '2') ∧ b.isDigit then
      some ((a.toNat - 48) * 10 + (b.toNat - 48), rest)
    else if a = '0' ∧ '1' ≤ b ∧ b ≤ '9' then some (b.toNat - 48, rest)
    else none
  | _ => none

/-- The one-digit alternative `[1-9]` shared by `%m` and `%d`. -/
def oneDigit19 : List Char → Option (Nat × List Char)
  | a :: rest => if '1' ≤ a ∧ a ≤ '9' then some (a.toNat - 48, rest) else none
  | [] => none

/-- `%Y` matches exactly four digits (`\d\d\d\d` in `_strptime.py`). -/
def fourDigitY : List Char → Option (Nat × List Char)
  | a :: b :: c :: d :: rest =>
    if a.isDigit ∧ b.isDigit ∧ c.isDigit ∧ d.isDigit then
      some ((a.toNat - 48) * 1000 + (b.toNat - 48) * 100 +
            (c.toNat - 48) * 10 + (d.toNat - 48), rest)
    else none
  | _ => none

/-- Lowercase month names for `%B`, as in the C locale. -/
def fullMonths : List String :=
  ["january", "february", "march", "april", "may", "june", "july",
   "august", "september", "october", "november", "december"]

/-- Lowercase abbreviated month names for `%b`. -/
def abbrMonths : List String :=
  ["jan", "feb", "mar", "apr", "may", "jun", "jul", "aug", "sep", "oct",
   "nov", "dec"]

/-- Case-insensitively strip `name` from the front of `cs`. -/
def matchName (cs : List Char) (name : String) : Option (List Char) :=
  let n := name.data
  if (cs.take n.length).map Char.toLower = n then some (cs.drop n.length) else none

/-- Match one month name from a list, returning its 1-based number and
the rest of the input (no month name is a prefix of another, so order
does not matter). -/
def monthFrom : List String → Nat → List Char → Option (Nat × List Char)
  | [], _, _ => none
  | nm :: rest, i, cs =>
    match matchName cs nm with
    | some cs2 => some (i, cs2)
    | none => monthFrom rest (i + 1) cs

/-- The `year`/`month`/`day` captures of a `strptime` match, with
CPython's defaults 1900-01-01. -/
structure Caps where
  y : Nat
  m : Nat
  d : Nat
deriving DecidableEq, Repr

/-- Run the compiled format against the input, demanding that the whole
string is consumed (CPython raises "unconverted data remains"
otherwise). Numeric directives try their two-digit regex alternatives
first and fall back to the one-digit alternative, mirroring regex
backtracking. -/
def matchToks : List FmtTok → List Char → Caps → Option Caps
  | [], [], caps => some caps
  | [], _ :: _, _ => none
  | FmtTok.lit c :: ts, cs, caps =>
    match cs with
    | c2 :: rest => if c2 = c then matchToks ts rest caps else none
    | [] => none
  | FmtTok.ws :: ts, cs, caps =>
    match cs with
    | c2 :: rest =>
      if c2.isWhitespace then matchToks ts (rest.dropWhile Char.isWhitespace) caps
      else none
    | [] => none
  | FmtTok.dy :: ts, cs, caps =>
    match fourDigitY cs with
    | some (v, rest) => matchToks ts rest { caps with y := v }
    | none => none
  | FmtTok.dm :: ts, cs, caps =>
    (match twoDigitM cs with
     | some (v, rest) => matchToks ts rest { caps with m := v }
     | none => none) <|>
    (match oneDigit19 cs with
     | some (v, rest) => matchToks ts rest { caps with m := v }
     | none => none)
  | FmtTok.dd :: ts, cs, caps =>
    (match twoDigitD cs with
     | some (v, rest) => matchToks ts rest { caps with d := v }
     | none => none) <|>
    (match oneDigit19 cs with
     | some (v, rest) => matchToks ts rest { caps with d := v }
     | none => none)
  | FmtTok.db :: ts, cs, caps =>
    match monthFrom fullMonths 1 cs with
    | some (mv, rest) => matchToks ts rest { caps with m := mv }
    | none => none
  | FmtTok.dab :: ts, cs, caps =>
    match monthFrom abbrMonths 1 cs with
    | some (mv, rest) => matchToks ts rest { caps with m := mv }
    | none => none

/-- Gregorian leap year, as `datetime` uses. -/
def isLeap (y : Nat) : Bool := y % 4 = 0 ∧ (y % 100 ≠ 0 ∨ y % 400 = 0)

/-- Days in a month, as `datetime` validates. -/
def daysInMonth (y m : Nat) : Nat :=
  if m = 2 then (if isLeap y then 29 else 28)
  else if m = 4 ∨ m = 6 ∨ m = 9 ∨ m = 11 then 30
  else 31

/-- The `datetime(year, month, day)` constructor's range checks. -/
def validDate (y m d : Nat) : Bool :=
  decide (1 ≤ y ∧ y ≤ 9999 ∧ 1 ≤ m ∧ m ≤ 12 ∧ 1 ≤ d ∧ d ≤ daysInMonth y m)

/-- `datetime.strptime(s, fmt)` for the formats the script uses:
regex match (with captures defaulting to 1900-01-01) followed by
`datetime` construction; `none` models `ValueError`. The result is a
naive datetime at midnight. -/
def strptime (fmt : String) (s : String) : Option PyDateTime :=
  match matchToks (compileFmt fmt.data) s.data ⟨1900, 1, 1⟩ with
  | some caps =>
    if validDate caps.y caps.m caps.d then
      some ⟨caps.y, caps.m, caps.d, 0, 0, 0, false⟩
    else none
  | none => none

/-- The format list of `parse_date`, in source order. -/
def pyFormats : List String :=
  ["%Y-%m-%d", "%Y/%m/%d", "%m/%d/%Y", "%d/%m/%Y", "%B %d, %Y", "%b %d, %Y"]

/-- The `for fmt in formats` loop: first successful parse wins. -/
def tryFormats : List String → String → Option PyDateTime
  | [], _ => none
  | f :: fs, s =>
    match strptime f s with
    | some dt => some dt
    | none => tryFormats fs s

/-- `parse_date` from the source: `None` and the empty stripped string
give `""`; otherwise the first format that parses wins and
`tzinfo=timezone.utc` is attached via `dt.replace`; if none matches the
result is `""`. -/
def parse_date : Option String → PyVal
  | none => .str ""
  | some v =>
    let s := pyStrip v
    if s = "" then .str ""
    else
      match tryFormats pyFormats s with
      | some dt => .date { dt with tzUtc := true }
      | none => .str ""

/-- First-occurrence lookup in an association list: Python `d.get(k)` /
`d[k]` read, and a MongoDB document's field access. -/
def alistGet {α : Type} : List (String × α) → String → Option α
  | [], _ => none
  | (k2, v) :: d, k => if k2 = k then some v else alistGet d k

/-- Python `d[k] = v` on a dict: replace the value at an existing key in
place (keys keep their insertion position) or append a new key. -/
def setField {α : Type} : List (String × α) → String → α → List (String × α)
  | [], k, v => [(k, v)]
  | (k2, v2) :: d, k, v =>
    if k2 = k then (k, v) :: d else (k2, v2) :: setField d k v

/-- A document handed to MongoDB: a Python dict from field name to value. -/
abbrev Doc : Type := List (String × PyVal)

/-- A raw spreadsheet row from `ws.get_all_records()`: column name to
cell text (the script immediately passes every cell through `str`). -/
abbrev RawRow : Type := List (String × String)

/-- `str(r.get(k, "")).strip()` from the row-mapping loop. -/
def pyGetStr (r : RawRow) (k : String) : String :=
  pyStrip ((alistGet r k).getD "")

/-- The dict literal of `get_sheet_records`'s loop body: fields are
included conditionally on `worksheet_name`, in source order; absent
conditions contribute no key at all. -/
def mapRow (worksheet_name : String) (r : RawRow) : Doc :=
  [("title", PyVal.str (pyGetStr r "title"))]
  ++ (if worksheet_name = "Presentations" then
        [("unique_id", PyVal.str (pyGetStr r "unique_id"))] else [])
  ++ (if worksheet_name = "Publications" then
        [("year", parse_year (alistGet r "year"))] else [])
  ++ (if worksheet_name = "Publications" ∨ worksheet_name = "Preprints" then
        [("authors", PyVal.str (pyGetStr r "authors"))] else [])
  ++ (if worksheet_name = "Publications" ∨ worksheet_name = "Preprints" then
        [("publisher", PyVal.str (pyGetStr r "publisher"))] else [])
  ++ (if worksheet_name = "Publications" ∨ worksheet_name = "Preprints" then
        [("doi", PyVal.str (pyGetStr r "doi"))] else [])
  ++ (if worksheet_name = "Publications" ∨ worksheet_name = "Presentations" then
        [("url", PyVal.str (pyGetStr r "url"))] else [])
  ++ (if worksheet_name = "Publications" ∨ worksheet_name = "Presentations" then
        [("date", parse_date (alistGet r "date"))]
      else
        [("date", parse_year (alistGet r "date"))])
  ++ (if worksheet_name = "Presentations" then
        [("event", PyVal.str (pyGetStr r "event"))] else [])
  ++ (if worksheet_name = "Presentations" then
        [("location", PyVal.str (pyGetStr r "location"))] else [])
  ++ (if worksheet_name = "Presentations" then
        [("format", PyVal.str (pyGetStr r "format"))] else [])
  ++ [("image", PyVal.str (pyGetStr r "image"))]

/-- `get_sheet_records` after the external fetch: one mapped document
per raw row, in order. -/
def get_sheet_records (worksheet_name : String) (raw : List RawRow) : List Doc :=
  raw.map (mapRow worksheet_name)

/-- The unique-key field `upsert_to_mongodb` filters on, per collection
name: `url` for `publications`, `unique_id` for `presentations`, `doi`
for everything else (the `else` branch). -/
def keyField (collection_name : String) : String :=
  if collection_name = "publications" then "url"
  else if collection_name = "presentations" then "unique_id"
  else "doi"

/-- `doc.get(keyField, "")`: the value the upsert filter would use. -/
def keyVal (collection_name : String) (doc : Doc) : PyVal :=
  (alistGet doc (keyField collection_name)).getD (PyVal.str "")

/-- One `UpdateOne(filter_doc, set-update, upsert=True)` operation. -/
structure Op where
  fk : String
  fv : PyVal
  u : Doc
deriving DecidableEq

/-- Apply a `$set` update to a stored document: each update field
overwrites in place or is appended, in update order. -/
def mergeSet (d u : Doc) : Doc :=
  u.foldl (fun acc p => setField acc p.1 p.2) d

/-- Walk the collection for the first document whose `fk` field equals
`fv`; apply the `$set`; report whether the document actually changed
(MongoDB's `modified_count` only counts real changes). `none` when no
document matches. -/
def updateFirst (fk : String) (fv : PyVal) (u : Doc) : List Doc → Option (List Doc × Bool)
  | [] => none
  | d :: ds =>
    if alistGet d fk = some fv then
      some (mergeSet d u :: ds, decide (¬ mergeSet d u = d))
    else
      (updateFirst fk fv u ds).map (fun p => (d :: p.1, p.2))

/-- Counters reported by `bulk_write`. -/
structure Counts where
  matched : Nat
  modified : Nat
  upserted : Nat
deriving DecidableEq, Repr

def Counts.add (a b : Counts) : Counts :=
  ⟨a.matched + b.matched, a.modified + b.modified, a.upserted + b.upserted⟩

/-- One `UpdateOne` with `upsert=True` against the collection: update
the first match, or insert a document built from the filter's equality
fields with the `$set` applied. -/
def applyOp (s : List Doc) (op : Op) : List Doc × Counts :=
  match updateFirst op.fk op.fv op.u s with
  | some (s2, m) => (s2, ⟨1, if m then 1 else 0, 0⟩)
  | none => (s ++ [mergeSet [(op.fk, op.fv)] op.u], ⟨0, 0, 1⟩)

/-- `col.bulk_write(ops, ordered=False)`: all operations applied, with
aggregated counters (the list model applies them in sequence). -/
def bulkWrite (s : List Doc) : List Op → List Doc × Counts
  | [] => (s, ⟨0, 0, 0⟩)
  | op :: ops =>
    let r1 := applyOp s op
    let r2 := bulkWrite r1.1 ops
    (r2.1, Counts.add r1.2 r2.2)

/-- `doc["_syncedAt"] = now` for one document. -/
def stamp (now : PyVal) (d : Doc) : Doc := setField d "_syncedAt" now

/-- The stamping that `upsert_to_mongodb`'s loop performs on every
record (including records later skipped): the single `now` captured
before the loop is written into each document. -/
def stampAll (now : PyVal) (records : List Doc) : List Doc :=
  records.map (stamp now)

/-- The op-building of `upsert_to_mongodb`'s loop: a document whose
unique-key value is the empty string (including a missing key, via
`doc.get(k, "")`) is skipped; otherwise one upsert op is built from it. -/
def buildOps (collection_name : String) (docs : List Doc) : List Op :=
  docs.filterMap (fun doc =>
    if keyVal collection_name doc = PyVal.str "" then none
    else some ⟨keyField collection_name, keyVal collection_name doc, doc⟩)

/-- What a call to `upsert_to_mongodb` leaves behind: the returned stats
dict, the collection contents, the caller's (mutated) records list, and
whether `bulk_write` was invoked. -/
structure SyncOut where
  result : List (String × Nat)
  store : List Doc
  records : List Doc
  storeCalled : Bool
deriving DecidableEq

/-- The early-return value `{"upserted": 0, "modified": 0, "matched": 0}`. -/
def zeroResult : List (String × Nat) :=
  [("upserted", 0), ("modified", 0), ("matched", 0)]

/-- `upsert_to_mongodb` on a collection state: empty input returns the
zero dict before the loop runs (no stamping, no store call); otherwise
every record is stamped with the one `now`, ops are built skipping
empty keys, and either the zero dict is returned (no ops) or
`bulk_write` runs and its counters are returned. -/
def upsert_to_mongodb (collection_name : String) (now : PyVal)
    (records : List Doc) (store : List Doc) : SyncOut :=
  if records = [] then ⟨zeroResult, store, records, false⟩
  else
    let stamped := stampAll now records
    let ops := buildOps collection_name stamped
    if ops = [] then ⟨zeroResult, store, stamped, false⟩
    else
      let wr := bulkWrite store ops
      ⟨[("upserted", wr.2.upserted), ("modified", wr.2.modified),
        ("matched", wr.2.matched)], wr.1, stamped, true⟩

/-- A collection state on which `op` is a stable no-op: the operation
matches a document and the `$set` changes nothing. -/
def goodOp (s : List Doc) (op : Op) : Prop :=
  updateFirst op.fk op.fv op.u s = some (s, false)

/-- The field schema per worksheet kind, read off the spec's field
tables: which keys a mapped document carries for each kind. -/
def fieldsOf (worksheet_name : String) : List String :=
  if worksheet_name = "Publications" then
    ["title", "year", "authors", "publisher", "doi", "url", "date", "image"]
  else if worksheet_name = "Preprints" then
    ["title", "authors", "publisher", "doi", "date", "image"]
  else if worksheet_name = "Presentations" then
    ["title", "unique_id", "url", "date", "event", "location", "format", "image"]
  else
    ["title", "date", "image"]

theorem alistGet_setField_self {α : Type} (d : List (String × α)) (k : String) (v : α) :
    alistGet (setField d k v) k = some v := by
  induction d with
  | nil => simp [setField, alistGet]
  | cons p d ih =>
    obtain ⟨k2, v2⟩ := p
    by_cases h : k2 = k
    · simp [setField, h, alistGet]
    · simp [setField, h, alistGet, ih]

theorem alistGet_setField_ne {α : Type} (d : List (String × α)) (k k2 : String) (v : α)
    (h : k ≠ k2) : alistGet (setField d k v) k2 = alistGet d k2 := by
  induction d with
  | nil => simp [setField, alistGet, h]
  | cons p d ih =>
    obtain ⟨k3, v3⟩ := p
    by_cases h3 : k3 = k
    · subst h3
      simp [setField, alistGet, h]
    · by_cases h4 : k3 = k2 <;>
        simp [setField, alistGet, h3, h4, Ne.symm h, ih]

theorem setField_eq_self {α : Type} (d : List (String × α)) (k : String) (v : α)
    (h : alistGet d k = some v) : setField d k v = d := by
  induction d with
  | nil => simp [alistGet] at h
  | cons p d ih =>
    obtain ⟨k2, v2⟩ := p
    by_cases h2 : k2 = k
    · subst h2
      simp [alistGet] at h
      simp [setField, h]
    · simp [alistGet, h2] at h
      simp [setField, h2, ih h]

theorem alistGet_mem {α : Type} (d : List (String × α)) (k : String) (v : α)
    (h : alistGet d k = some v) : (k, v) ∈ d := by
  induction d with
  | nil => simp [alistGet] at h
  | cons p d ih =>
    obtain ⟨k2, v2⟩ := p
    by_cases h2 : k2 = k
    · subst h2
      simp [alistGet] at h
      simp [h]
    · simp [alistGet, h2] at h
      simp [ih h]

theorem keys_setField {α : Type} (d : List (String × α)) (k : String) (v : α) :
    (setField d k v).map Prod.fst =
      if k ∈ d.map Prod.fst then d.map Prod.fst else d.map Prod.fst ++ [k] := by
  induction d with
  | nil => simp [setField]
  | cons p d ih =>
    obtain ⟨k2, v2⟩ := p
    by_cases h2 : k2 = k
    · subst h2
      simp [setField]
    · have h2b : ¬ k = k2 := fun h => h2 h.symm
      by_cases hm : k ∈ d.map Prod.fst <;>
        simp [setField, h2, h2b, hm, ih]

theorem nodup_keys_setField {α : Type} (d : List (String × α)) (k : String) (v : α)
    (h : (d.map Prod.fst).Nodup) : ((setField d k v).map Prod.fst).Nodup := by
  rw [keys_setField]
  by_cases hm : k ∈ d.map Prod.fst
  · simpa [hm] using h
  · simp only [hm, if_false]
    exact List.Nodup.append h (List.nodup_singleton k) (by simpa using hm)

theorem mergeSet_cons (d : Doc) (k : String) (v : PyVal) (u : Doc) :
    mergeSet d ((k, v) :: u) = mergeSet (setField d k v) u := rfl

theorem alistGet_mergeSet_not_mem (d u : Doc) (k : String)
    (h : k ∉ u.map Prod.fst) : alistGet (mergeSet d u) k = alistGet d k := by
  induction u generalizing d with
  | nil => rfl
  | cons p u ih =>
    obtain ⟨k2, v2⟩ := p
    simp only [List.map_cons, List.mem_cons] at h
    push_neg at h
    rw [mergeSet_cons, ih _ h.2, alistGet_setField_ne _ _ _ _ (fun hx => h.1 hx.symm)]

theorem alistGet_mergeSet_of_mem (u : Doc) (k : String) (v : PyVal)
    (hnd : (u.map Prod.fst).Nodup) (hm : (k, v) ∈ u) :
    ∀ d, alistGet (mergeSet d u) k = some v := by
  induction u with
  | nil => simp at hm
  | cons p u ih =>
    obtain ⟨k2, v2⟩ := p
    intro d
    rw [List.map_cons] at hnd
    obtain ⟨hnin, hnd2⟩ := List.nodup_cons.mp hnd
    rcases List.mem_cons.mp hm with heq | htl
    · cases heq
      rw [mergeSet_cons, alistGet_mergeSet_not_mem _ _ _ hnin, alistGet_setField_self]
    · exact mergeSet_cons .. ▸ ih hnd2 htl (setField d k2 v2)

theorem mergeSet_eq_self (d u : Doc) (h : ∀ p ∈ u, alistGet d p.1 = some p.2) :
    mergeSet d u = d := by
  induction u with
  | nil => rfl
  | cons p u ih =>
    obtain ⟨k2, v2⟩ := p
    rw [mergeSet_cons, setField_eq_self _ _ _ (h _ (List.mem_cons_self _ _))]
    exact ih (fun q hq => h q (List.mem_cons_of_mem _ hq))

theorem mergeSet_idem (d u : Doc) (hnd : (u.map Prod.fst).Nodup) :
    mergeSet (mergeSet d u) u = mergeSet d u :=
  mergeSet_eq_self _ _ (fun p hp => alistGet_mergeSet_of_mem u p.1 p.2 hnd (by simpa using hp) d)

theorem applyOp_of_goodOp (s : List Doc) (op : Op) (h : goodOp s op) :
    applyOp s op = (s, ⟨1, 0, 0⟩) := by
  unfold goodOp at h
  unfold applyOp
  rw [h]
  rfl

theorem updateFirst_append_some (fk : String) (fv : PyVal) (u : Doc)
    (s : List Doc) :
    ∀ t l b, updateFirst fk fv u s = some (t, b) →
      updateFirst fk fv u (s ++ l) = some (t ++ l, b) := by
  induction s with
  | nil => intro t l b h; simp [updateFirst] at h
  | cons d ds ih =>
    intro t l b h
    by_cases hd : alistGet d fk = some fv
    · simp only [updateFirst, hd, if_true, Option.some.injEq] at h
      obtain ⟨h1, h2⟩ := Prod.mk.injEq .. ▸ h
      subst h1; subst h2
      simp [updateFirst, hd]
    · simp only [updateFirst, hd, if_false] at h
      match hds : updateFirst fk fv u ds with
      | none => rw [hds] at h; simp at h
      | some (t2, b2) =>
        rw [hds] at h
        simp only [Option.map_some', Option.some.injEq] at h
        obtain ⟨h1, h2⟩ := Prod.mk.injEq .. ▸ h
        subst h1; subst h2
        simp only [List.cons_append, updateFirst, hd, if_false, List.append_eq,
          ih t2 l b2 hds, Option.map_some']

theorem updateFirst_match_stable (fk : String) (fv fv2 : PyVal) (u u2 : Doc)
    (hne : fv2 ≠ fv) (hmem : (fk, fv2) ∈ u2) (hnd : (u2.map Prod.fst).Nodup)
    (s : List Doc) :
    ∀ t2 b2, updateFirst fk fv u s = some (s, false) →
      updateFirst fk fv2 u2 s = some (t2, b2) →
      updateFirst fk fv u t2 = some (t2, false) := by
  induction s with
  | nil => intro t2 b2 h1 h2; simp [updateFirst] at h1
  | cons d ds ih =>
    intro t2 b2 h1 h2
    by_cases hd : alistGet d fk = some fv
    · -- the head is the stable match for `op`; `op2` cannot match it
      have hd2 : ¬ alistGet d fk = some fv2 := by
        rw [hd]; intro hx; exact hne (Option.some.injEq .. ▸ hx).symm
      simp only [updateFirst, hd, if_true, Option.some.injEq] at h1
      obtain ⟨h1a, h1b⟩ := Prod.mk.injEq .. ▸ h1
      have hmerge : mergeSet d u = d := by
        have := congrArg (fun l => l.headD d) h1a
        simpa using this
      simp only [updateFirst, hd2, if_false] at h2
      match hds : updateFirst fk fv2 u2 ds with
      | none => rw [hds] at h2; simp at h2
      | some (t3, b3) =>
        rw [hds] at h2
        simp only [Option.map_some', Option.some.injEq] at h2
        obtain ⟨h2a, h2b⟩ := Prod.mk.injEq .. ▸ h2
        subst h2a
        simp [updateFirst, hd, hmerge]
    · -- the head is untouched by `op`; split on whether `op2` hits it
      simp only [updateFirst, hd, if_false] at h1
      match hds1 : updateFirst fk fv u ds with
      | none => rw [hds1] at h1; simp at h1
      | some (t1, b1) =>
        rw [hds1] at h1
        simp only [Option.map_some', Option.some.injEq] at h1
        obtain ⟨h1a, h1b⟩ := Prod.mk.injEq .. ▸ h1
        have hds1' : updateFirst fk fv u ds = some (ds, false) := by
          rw [hds1, h1b]
          have : t1 = ds := by
            have := congrArg List.tail h1a
            simpa using this
          rw [this]
        by_cases hd2 : alistGet d fk = some fv2
        · simp only [updateFirst, hd2, if_true, Option.some.injEq] at h2
          obtain ⟨h2a, h2b⟩ := Prod.mk.injEq .. ▸ h2
          subst h2a
          have hdm : ¬ alistGet (mergeSet d u2) fk = some fv := by
            rw [alistGet_mergeSet_of_mem u2 fk fv2 hnd hmem d]
            intro hx; exact hne (Option.some.injEq .. ▸ hx)
          simp [updateFirst, hdm, hds1']
        · simp only [updateFirst, hd2, if_false] at h2
          match hds2 : updateFirst fk fv2 u2 ds with
          | none => rw [hds2] at h2; simp at h2
          | some (t3, b3) =>
            rw [hds2] at h2
            simp only [Option.map_some', Option.some.injEq] at h2
            obtain ⟨h2a, h2b⟩ := Prod.mk.injEq .. ▸ h2
            subst h2a
            have := ih t3 b3 hds1' hds2
            simp [updateFirst, hd, this]

theorem updateFirst_append_none (fk : String) (fv : PyVal) (u : Doc)
    (s : List Doc) (l : List Doc) (h : updateFirst fk fv u s = none) :
    updateFirst fk fv u (s ++ l) =
      (updateFirst fk fv u l).map (fun p => (s ++ p.1, p.2)) := by
  induction s with
  | nil =>
    simp only [List.nil_append]
    cases updateFirst fk fv u l <;> simp
  | cons d ds ih =>
    by_cases hd : alistGet d fk = some fv
    · simp [updateFirst, hd] at h
    · simp only [updateFirst, hd, if_false] at h
      have hds : updateFirst fk fv u ds = none := by
        cases hx : updateFirst fk fv u ds
        · rfl
        · rw [hx] at h; simp at h
      simp only [List.cons_append, updateFirst, hd, if_false, List.append_eq,
        ih hds, Option.map_map]
      rfl

theorem updateFirst_restabilize (fk : String) (fv : PyVal) (u : Doc)
    (hmem : (fk, fv) ∈ u) (hnd : (u.map Prod.fst).Nodup) (s : List Doc) :
    ∀ t b, updateFirst fk fv u s = some (t, b) →
      updateFirst fk fv u t = some (t, false) := by
  induction s with
  | nil => intro t b h; simp [updateFirst] at h
  | cons d ds ih =>
    intro t b h
    by_cases hd : alistGet d fk = some fv
    · simp only [updateFirst, hd, if_true, Option.some.injEq] at h
      obtain ⟨h1, h2⟩ := Prod.mk.injEq .. ▸ h
      subst h1
      have hget : alistGet (mergeSet d u) fk = some fv :=
        alistGet_mergeSet_of_mem u fk fv hnd hmem d
      have hidem : mergeSet (mergeSet d u) u = mergeSet d u := mergeSet_idem d u hnd
      simp [updateFirst, hget, hidem]
    · simp only [updateFirst, hd, if_false] at h
      match hds : updateFirst fk fv u ds with
      | none => rw [hds] at h; simp at h
      | some (t2, b2) =>
        rw [hds] at h
        simp only [Option.map_some', Option.some.injEq] at h
        obtain ⟨h1, h2⟩ := Prod.mk.injEq .. ▸ h
        subst h1
        have := ih t2 b2 hds
        simp [updateFirst, hd, this]

theorem goodOp_applyOp_self (s : List Doc) (op : Op)
    (hmem : (op.fk, op.fv) ∈ op.u) (hnd : (op.u.map Prod.fst).Nodup) :
    goodOp (applyOp s op).1 op := by
  cases h2 : updateFirst op.fk op.fv op.u s with
  | none =>
    have happ : applyOp s op = (s ++ [mergeSet [(op.fk, op.fv)] op.u], ⟨0, 0, 1⟩) := by
      unfold applyOp; rw [h2]
    rw [happ]
    unfold goodOp
    have hget : alistGet (mergeSet [(op.fk, op.fv)] op.u) op.fk = some op.fv :=
      alistGet_mergeSet_of_mem op.u op.fk op.fv hnd hmem _
    have hidem : mergeSet (mergeSet [(op.fk, op.fv)] op.u) op.u =
        mergeSet [(op.fk, op.fv)] op.u := mergeSet_idem _ op.u hnd
    rw [updateFirst_append_none _ _ _ _ _ h2]
    simp [updateFirst, hget, hidem]
  | some p =>
    obtain ⟨t2, b2⟩ := p
    have happ : applyOp s op = (t2, ⟨1, if b2 then 1 else 0, 0⟩) := by
      unfold applyOp; rw [h2]
    rw [happ]
    exact updateFirst_restabilize op.fk op.fv op.u hmem hnd s t2 b2 h2

theorem goodOp_bulkWrite_stable (op : Op) (ops : List Op)
    (hops : ∀ op2 ∈ ops, op2.fk = op.fk ∧ op2.fv ≠ op.fv ∧
      (op2.fk, op2.fv) ∈ op2.u ∧ (op2.u.map Prod.fst).Nodup) :
    ∀ s, goodOp s op → goodOp (bulkWrite s ops).1 op := by
  induction ops with
  | nil => intro s h; exact h
  | cons op2 ops ih =>
    intro s h
    obtain ⟨hfk, hfv, hmem, hnd⟩ := hops op2 (List.mem_cons_self _ _)
    have hstep : goodOp (applyOp s op2).1 op := by
      cases h2 : updateFirst op2.fk op2.fv op2.u s with
      | none =>
        have happ : applyOp s op2 =
            (s ++ [mergeSet [(op2.fk, op2.fv)] op2.u], ⟨0, 0, 1⟩) := by
          unfold applyOp; rw [h2]
        rw [happ]
        exact updateFirst_append_some _ _ _ s s _ false h
      | some p =>
        obtain ⟨t2, b2⟩ := p
        have happ : applyOp s op2 = (t2, ⟨1, if b2 then 1 else 0, 0⟩) := by
          unfold applyOp; rw [h2]
        rw [happ]
        exact updateFirst_match_stable op.fk op.fv op2.fv op.u op2.u hfv
          (by rw [← hfk]; exact hmem) hnd s t2 b2 h (by rw [← hfk]; exact h2)
    have hrec := ih (fun o ho => hops o (List.mem_cons_of_mem _ ho)) (applyOp s op2).1 hstep
    simpa [bulkWrite] using hrec

theorem goodOp_after_bulk (fk0 : String) (ops : List Op)
    (hops : ∀ op ∈ ops, op.fk = fk0 ∧ (op.fk, op.fv) ∈ op.u ∧
      (op.u.map Prod.fst).Nodup)
    (hnd : (ops.map Op.fv).Nodup) :
    ∀ s op, op ∈ ops → goodOp (bulkWrite s ops).1 op := by
  induction ops with
  | nil => intro s op h; simp at h
  | cons op0 ops ih =>
    intro s op hmem
    obtain ⟨h0k, h0m, h0n⟩ := hops op0 (List.mem_cons_self _ _)
    rw [List.map_cons] at hnd
    obtain ⟨hnin, hnd2⟩ := List.nodup_cons.mp hnd
    have hbw : (bulkWrite s (op0 :: ops)).1 = (bulkWrite (applyOp s op0).1 ops).1 := by
      simp [bulkWrite]
    rcases List.mem_cons.mp hmem with heq | htl
    · subst heq
      have hg : goodOp (applyOp s op).1 op := goodOp_applyOp_self s op h0m h0n
      rw [hbw]
      refine goodOp_bulkWrite_stable op ops (fun op2 h2 => ?_) _ hg
      refine ⟨((hops op2 (List.mem_cons_of_mem _ h2)).1).trans h0k.symm,
        fun hx => hnin ?_,
        (hops op2 (List.mem_cons_of_mem _ h2)).2.1,
        (hops op2 (List.mem_cons_of_mem _ h2)).2.2⟩
      rw [← hx]
      exact List.mem_map_of_mem Op.fv h2
    · rw [hbw]
      exact ih (fun o ho => hops o (List.mem_cons_of_mem _ ho)) hnd2 _ op htl

theorem bulkWrite_of_good (ops : List Op) :
    ∀ s, (∀ op ∈ ops, goodOp s op) →
      bulkWrite s ops = (s, ⟨ops.length, 0, 0⟩) := by
  induction ops with
  | nil => intro s _; simp [bulkWrite]
  | cons op0 ops ih =>
    intro s h
    have h0 := applyOp_of_goodOp s op0 (h op0 (List.mem_cons_self _ _))
    have hrest := ih s (fun o ho => h o (List.mem_cons_of_mem _ ho))
    simp [bulkWrite, h0, hrest, Counts.add, Nat.add_comm]

theorem mem_buildOps (c : String) (docs : List Doc) (op : Op)
    (h : op ∈ buildOps c docs) :
    op.fk = keyField c ∧ (op.fk, op.fv) ∈ op.u ∧ op.u ∈ docs := by
  unfold buildOps at h
  rw [List.mem_filterMap] at h
  obtain ⟨doc, hdoc, heq⟩ := h
  by_cases hk : keyVal c doc = PyVal.str ""
  · simp [hk] at heq
  · rw [if_neg hk] at heq
    have heq2 : Op.mk (keyField c) (keyVal c doc) doc = op :=
      Option.some.injEq .. ▸ heq
    subst heq2
    refine ⟨rfl, ?_, hdoc⟩
    show (keyField c, keyVal c doc) ∈ doc
    unfold keyVal at hk ⊢
    cases halist : alistGet doc (keyField c) with
    | none => rw [halist] at hk; simp at hk
    | some v =>
      simpa using alistGet_mem _ _ _ halist

theorem upsert_nil (c : String) (now : PyVal) (store : List Doc) :
    upsert_to_mongodb c now [] store = ⟨zeroResult, store, [], false⟩ := rfl

theorem upsert_no_ops (c : String) (now : PyVal) (records store : List Doc)
    (hrec : ¬ records = []) (hops : buildOps c (stampAll now records) = []) :
    upsert_to_mongodb c now records store =
      ⟨zeroResult, store, stampAll now records, false⟩ := by
  unfold upsert_to_mongodb
  rw [if_neg hrec]
  simp [hops]

theorem upsert_main (c : String) (now : PyVal) (records store : List Doc)
    (hrec : ¬ records = []) (hops : ¬ buildOps c (stampAll now records) = []) :
    upsert_to_mongodb c now records store =
      ⟨[("upserted", (bulkWrite store (buildOps c (stampAll now records))).2.upserted),
        ("modified", (bulkWrite store (buildOps c (stampAll now records))).2.modified),
        ("matched", (bulkWrite store (buildOps c (stampAll now records))).2.matched)],
       (bulkWrite store (buildOps c (stampAll now records))).1,
       stampAll now records, true⟩ := by
  unfold upsert_to_mongodb
  rw [if_neg hrec]
  simp [hops]

/-- C1 (amended): running `upsert_to_mongodb` twice with the same
collection name and an identical list of documents yields, on the
second run, `upserted = 0`; and `modified = 0` as well, provided the
second pass stamps the same synchronization timestamp as the first and
the non-empty unique-key values of the batch are pairwise distinct.
(As literally stated the claim is false: the code re-stamps
`_syncedAt` with a fresh `now` on every run, so a second run at a
later time modifies every re-written document even though the caller's
documents are unchanged — see the counterexample.) -/
theorem sync_rerun_idempotent_amended (collection_name : String) (now : PyVal)
    (records store : List Doc)
    (hwf : ∀ d ∈ records, (d.map Prod.fst).Nodup)
    (hkeys : ((buildOps collection_name (stampAll now records)).map Op.fv).Nodup) :
    alistGet (upsert_to_mongodb collection_name now records
      (upsert_to_mongodb collection_name now records store).store).result
      "upserted" = some 0 ∧
    alistGet (upsert_to_mongodb collection_name now records
      (upsert_to_mongodb collection_name now records store).store).result
      "modified" = some 0 := by
  by_cases hrec : records = []
  · subst hrec
    rw [upsert_nil, upsert_nil]
    exact ⟨rfl, rfl⟩
  · by_cases hops : buildOps collection_name (stampAll now records) = []
    · rw [upsert_no_ops _ _ _ _ hrec hops, upsert_no_ops _ _ _ _ hrec hops]
      exact ⟨rfl, rfl⟩
    · have hfacts : ∀ op ∈ buildOps collection_name (stampAll now records),
          op.fk = keyField collection_name ∧ (op.fk, op.fv) ∈ op.u ∧
          (op.u.map Prod.fst).Nodup := by
        intro op hop
        obtain ⟨h1, h2, h3⟩ := mem_buildOps _ _ _ hop
        refine ⟨h1, h2, ?_⟩
        unfold stampAll at h3
        rw [List.mem_map] at h3
        obtain ⟨d, hd, hdu⟩ := h3
        rw [← hdu]
        exact nodup_keys_setField d _ now (hwf d hd)
      have hgood := goodOp_after_bulk (keyField collection_name) _ hfacts hkeys store
      have hbw := bulkWrite_of_good _ (bulkWrite store
        (buildOps collection_name (stampAll now records))).1 hgood
      have hstore1 : (upsert_to_mongodb collection_name now records store).store =
          (bulkWrite store (buildOps collection_name (stampAll now records))).1 := by
        rw [upsert_main _ _ _ _ hrec hops]
      rw [hstore1, upsert_main _ _ _ _ hrec hops, hbw]
      exact ⟨rfl, rfl⟩

/-- C1, counterexample to the claim as stated: with the same single
document synced twice, the second run (at a later wall-clock time, so a
different `now`) reports `modified = 1`, not `0`, because `_syncedAt`
is re-stamped and `$set` therefore changes the stored document. -/
theorem sync_rerun_idempotent_cex :
    alistGet (upsert_to_mongodb "publications" (PyVal.date ⟨2024, 1, 1, 0, 0, 1, true⟩)
      [[("url", PyVal.str "a")]]
      (upsert_to_mongodb "publications" (PyVal.date ⟨2024, 1, 1, 0, 0, 0, true⟩)
        [[("url", PyVal.str "a")]] []).store).result "modified" = some 1 ∧
    alistGet (upsert_to_mongodb "publications" (PyVal.date ⟨2024, 1, 1, 0, 0, 1, true⟩)
      [[("url", PyVal.str "a")]]
      (upsert_to_mongodb "publications" (PyVal.date ⟨2024, 1, 1, 0, 0, 0, true⟩)
        [[("url", PyVal.str "a")]] []).store).result "upserted" = some 0 := by
  constructor
  · rfl
  · rfl

/-- C1, witness: the amended theorem applied to a concrete two-document
batch re-synced with the same timestamp. -/
theorem sync_rerun_idempotent_witness :
    alistGet (upsert_to_mongodb "publications" (PyVal.str "t")
      [[("url", PyVal.str "a")], [("url", PyVal.str "b")]]
      (upsert_to_mongodb "publications" (PyVal.str "t")
        [[("url", PyVal.str "a")], [("url", PyVal.str "b")]] []).store).result
      "upserted" = some 0 ∧
    alistGet (upsert_to_mongodb "publications" (PyVal.str "t")
      [[("url", PyVal.str "a")], [("url", PyVal.str "b")]]
      (upsert_to_mongodb "publications" (PyVal.str "t")
        [[("url", PyVal.str "a")], [("url", PyVal.str "b")]] []).store).result
      "modified" = some 0 :=
  sync_rerun_idempotent_amended "publications" (PyVal.str "t")
    [[("url", PyVal.str "a")], [("url", PyVal.str "b")]] []
    (by decide) (by decide)

theorem upsert_records_stamped (c : String) (now : PyVal)
    (records store : List Doc) (hrec : ¬ records = []) :
    (upsert_to_mongodb c now records store).records = stampAll now records := by
  by_cases hops : buildOps c (stampAll now records) = []
  · rw [upsert_no_ops _ _ _ _ hrec hops]
  · rw [upsert_main _ _ _ _ hrec hops]

/-- C7: if the input document list is empty, or every document is
skipped so the operation list is empty, `upsert_to_mongodb` returns the
all-zero stats dict `{"upserted": 0, "modified": 0, "matched": 0}`, the
collection is untouched, and `bulk_write` is never invoked. -/
theorem sync_empty_returns_zero (collection_name : String) (now : PyVal)
    (records store : List Doc)
    (h : records = [] ∨ buildOps collection_name (stampAll now records) = []) :
    (upsert_to_mongodb collection_name now records store).result = zeroResult ∧
    (upsert_to_mongodb collection_name now records store).storeCalled = false ∧
    (upsert_to_mongodb collection_name now records store).store = store := by
  by_cases hrec : records = []
  · subst hrec
    rw [upsert_nil]
    exact ⟨rfl, rfl, rfl⟩
  · rcases h with h | h
    · exact absurd h hrec
    · rw [upsert_no_ops _ _ _ _ hrec h]
      exact ⟨rfl, rfl, rfl⟩

/-- C7, witness: the empty batch against an empty `publications`
collection. -/
theorem sync_empty_returns_zero_witness :
    (upsert_to_mongodb "publications" (PyVal.str "t") [] []).result = zeroResult ∧
    (upsert_to_mongodb "publications" (PyVal.str "t") [] []).storeCalled = false ∧
    (upsert_to_mongodb "publications" (PyVal.str "t") [] []).store = [] :=
  sync_empty_returns_zero "publications" (PyVal.str "t") [] [] (Or.inl rfl)

/-- C6: within one pass, the `now` timestamp is captured once before
the loop (modelled as the single `now` argument) and every document of
the batch ends up carrying exactly that value under `_syncedAt`, so all
documents written in one pass share an identical `_syncedAt`. -/
theorem sync_single_timestamp (collection_name : String) (now : PyVal)
    (records store : List Doc) (hrec : ¬ records = []) :
    ∀ d ∈ (upsert_to_mongodb collection_name now records store).records,
      alistGet d "_syncedAt" = some now := by
  intro d hd
  rw [upsert_records_stamped _ _ _ _ hrec] at hd
  unfold stampAll at hd
  rw [List.mem_map] at hd
  obtain ⟨d0, _, hd0⟩ := hd
  rw [← hd0]
  exact alistGet_setField_self d0 _ now

/-- C6, witness: the one stamped document of a singleton batch carries
the pass timestamp. -/
theorem sync_single_timestamp_witness :
    alistGet [("url", PyVal.str "a"), ("_syncedAt", PyVal.str "t")] "_syncedAt" =
      some (PyVal.str "t") :=
  sync_single_timestamp "publications" (PyVal.str "t") [[("url", PyVal.str "a")]] []
    (by decide) [("url", PyVal.str "a"), ("_syncedAt", PyVal.str "t")] (by decide)

/-- C10: `upsert_to_mongodb` mutates its input in place: for every
non-empty input list the caller's records come back as exactly the
stamped list — every document, including ones later skipped for an
empty unique key, gains a `_syncedAt` key — even when nothing is
written to the store. -/
theorem sync_mutates_caller_records (collection_name : String) (now : PyVal)
    (records store : List Doc) (hrec : ¬ records = []) :
    (upsert_to_mongodb collection_name now records store).records =
      records.map (fun d => setField d "_syncedAt" now) ∧
    ∀ d ∈ (upsert_to_mongodb collection_name now records store).records,
      "_syncedAt" ∈ d.map Prod.fst := by
  refine ⟨upsert_records_stamped _ _ _ _ hrec, ?_⟩
  intro d hd
  rw [upsert_records_stamped _ _ _ _ hrec] at hd
  unfold stampAll at hd
  rw [List.mem_map] at hd
  obtain ⟨d0, _, hd0⟩ := hd
  rw [← hd0]
  exact List.mem_map_of_mem Prod.fst
    (alistGet_mem _ _ _ (alistGet_setField_self d0 "_syncedAt" now))

/-- C10, witness: a batch whose only document is skipped (empty `url`)
still comes back stamped, while the store is never touched. -/
theorem sync_mutates_caller_records_witness :
    (upsert_to_mongodb "publications" (PyVal.str "t") [[("url", PyVal.str "")]] []).records =
      [[("url", PyVal.str "")]].map (fun d => setField d "_syncedAt" (PyVal.str "t")) ∧
    ∀ d ∈ (upsert_to_mongodb "publications" (PyVal.str "t")
        [[("url", PyVal.str "")]] []).records,
      "_syncedAt" ∈ d.map Prod.fst :=
  sync_mutates_caller_records "publications" (PyVal.str "t")
    [[("url", PyVal.str "")]] [] (by decide)

/-- C9, counterexample to the claim as stated: a two-document batch
with one document skipped for an empty `url` returns a stats dict with
no `"skipped"` entry at all — the skipped count is not surfaced to the
caller (the result carries only `upserted`, `modified`, `matched`). -/
theorem sync_skipped_count_cex :
    (stampAll (PyVal.str "t") [[("url", PyVal.str "")], [("url", PyVal.str "a")]]).length = 2 ∧
    (buildOps "publications"
      (stampAll (PyVal.str "t") [[("url", PyVal.str "")], [("url", PyVal.str "a")]])).length = 1 ∧
    alistGet (upsert_to_mongodb "publications" (PyVal.str "t")
      [[("url", PyVal.str "")], [("url", PyVal.str "a")]] []).result "skipped" = none := by
  exact ⟨rfl, rfl, rfl⟩

/-- C9 (amended): the stats dict returned by `upsert_to_mongodb`
contains exactly the keys `upserted`, `modified` and `matched`, in that
order; the number of documents skipped for a missing unique key is not
observable in the result. -/
theorem sync_result_keys (collection_name : String) (now : PyVal)
    (records store : List Doc) :
    (upsert_to_mongodb collection_name now records store).result.map Prod.fst =
      ["upserted", "modified", "matched"] := by
  by_cases hrec : records = []
  · subst hrec; rw [upsert_nil]; rfl
  · by_cases hops : buildOps collection_name (stampAll now records) = []
    · rw [upsert_no_ops _ _ _ _ hrec hops]; rfl
    · rw [upsert_main _ _ _ _ hrec hops]; rfl

/-- C3: `upsert_to_mongodb` builds exactly one upsert op per document
whose unique-key field is non-empty — `url` for `publications`,
`unique_id` for `presentations`, `doi` for every other collection —
and silently skips documents whose key value is empty or absent; on
`[{url:"a"}, {url:""}, {url:"b"}]` keyed on `url` exactly 2 ops are
built. -/
theorem sync_one_op_per_nonempty_key (c : String) (docs : List Doc) :
    buildOps c docs =
      (docs.filter (fun d => !(keyVal c d == PyVal.str ""))).map
        (fun d => Op.mk (keyField c) (keyVal c d) d) ∧
    keyField "publications" = "url" ∧
    keyField "presentations" = "unique_id" ∧
    (¬ c = "publications" → ¬ c = "presentations" → keyField c = "doi") ∧
    (buildOps "publications"
      [[("url", PyVal.str "a")], [("url", PyVal.str "")],
       [("url", PyVal.str "b")]]).length = 2 := by
  refine ⟨?_, rfl, rfl, ?_, by decide⟩
  · induction docs with
    | nil => rfl
    | cons d ds ih =>
      unfold buildOps at ih ⊢
      by_cases h : keyVal c d = PyVal.str "" <;>
        simp [List.filterMap_cons, List.filter_cons, h, ih]
  · intro h1 h2
    unfold keyField
    rw [if_neg h1, if_neg h2]

/-- C3, witness: the key-field table applied to an unlisted collection
name (`projects` falls to the `doi` branch). -/
theorem sync_one_op_per_nonempty_key_witness : keyField "projects" = "doi" :=
  (sync_one_op_per_nonempty_key "projects" []).2.2.2.1 (by decide) (by decide)

/-- C2, counterexample to the claim as stated: an unrecognized
worksheet kind (`"Bogus"`) does not fail — `mapRow` happily produces a
generic document — and an unrecognized collection kind (`"bogus"`)
does not fail either — the sync builds and executes an upsert keyed on
`doi`. No configuration error aborts the pass. -/
theorem unknown_kind_fail_fast_cex :
    mapRow "Bogus" [("title", "T")] =
      [("title", PyVal.str "T"), ("date", PyVal.str ""), ("image", PyVal.str "")] ∧
    (upsert_to_mongodb "bogus" (PyVal.str "t") [[("doi", PyVal.str "x")]] []).result =
      [("upserted", 1), ("modified", 0), ("matched", 0)] ∧
    (upsert_to_mongodb "bogus" (PyVal.str "t") [[("doi", PyVal.str "x")]] []).storeCalled =
      true := by
  exact ⟨rfl, rfl, rfl⟩

/-- C2 (amended): there is no fail-fast branch; a worksheet kind
outside the three recognized names maps every row with the generic
schema `title`, `date` (year-parsed) and `image`, and a collection
kind outside `publications`/`presentations` is synced with unique key
`doi`. -/
theorem unknown_kind_amended (worksheet_name collection_name : String) (r : RawRow)
    (h1 : ¬ worksheet_name = "Publications") (h2 : ¬ worksheet_name = "Preprints")
    (h3 : ¬ worksheet_name = "Presentations")
    (h4 : ¬ collection_name = "publications")
    (h5 : ¬ collection_name = "presentations") :
    (mapRow worksheet_name r).map Prod.fst = ["title", "date", "image"] ∧
    keyField collection_name = "doi" := by
  constructor
  · simp [mapRow, h1, h2, h3]
  · unfold keyField
    rw [if_neg h4, if_neg h5]

/-- C2, witness: the amended behaviour at the concrete unknown kinds
`"Bogus"` / `"bogus"`. -/
theorem unknown_kind_amended_witness :
    (mapRow "Bogus" [("title", "T")]).map Prod.fst = ["title", "date", "image"] ∧
    keyField "bogus" = "doi" :=
  unknown_kind_amended "Bogus" "bogus" [("title", "T")]
    (by decide) (by decide) (by decide) (by decide) (by decide)

/-- C5: for every raw row and worksheet kind the mapped document
carries exactly the keys of that kind's schema — inapplicable fields
are omitted, not set to null — and the spec's end-to-end Publications
example maps to exactly the expected document, with no `event`,
`location` or `unique_id` key. -/
theorem mapRow_keys_match_schema (worksheet_name : String) (r : RawRow) :
    (mapRow worksheet_name r).map Prod.fst = fieldsOf worksheet_name ∧
    mapRow "Publications"
      [("title", "T"), ("authors", "A"), ("year", "2020"), ("url", "http://x"),
       ("date", "2020-01-15")] =
      [("title", PyVal.str "T"), ("year", PyVal.int 2020),
       ("authors", PyVal.str "A"), ("publisher", PyVal.str ""),
       ("doi", PyVal.str ""), ("url", PyVal.str "http://x"),
       ("date", PyVal.date ⟨2020, 1, 15, 0, 0, 0, true⟩),
       ("image", PyVal.str "")] ∧
    alistGet (mapRow "Publications"
      [("title", "T"), ("authors", "A"), ("year", "2020"), ("url", "http://x"),
       ("date", "2020-01-15")]) "event" = none ∧
    alistGet (mapRow "Publications"
      [("title", "T"), ("authors", "A"), ("year", "2020"), ("url", "http://x"),
       ("date", "2020-01-15")]) "location" = none ∧
    alistGet (mapRow "Publications"
      [("title", "T"), ("authors", "A"), ("year", "2020"), ("url", "http://x"),
       ("date", "2020-01-15")]) "unique_id" = none := by
  refine ⟨?_, by decide, by decide, by decide, by decide⟩
  by_cases h1 : worksheet_name = "Publications"
  · subst h1; simp [mapRow, fieldsOf]
  · by_cases h2 : worksheet_name = "Preprints"
    · subst h2; simp [mapRow, fieldsOf]
    · by_cases h3 : worksheet_name = "Presentations"
      · subst h3; simp [mapRow, fieldsOf]
      · simp [mapRow, fieldsOf, h1, h2, h3]

/-- C8: `parse_year` is total and never raises — `None` and blank input
give the empty-string sentinel, an integer-parse failure gives the
sentinel rather than an error, a successful parse gives the integer,
and the spec's three examples hold. -/
theorem parse_year_total (s : String) (n : Int) :
    parse_year none = PyVal.str "" ∧
    (pyStrip s = "" → parse_year (some s) = PyVal.str "") ∧
    (pyInt (pyStrip s) = some n → parse_year (some s) = PyVal.int n) ∧
    (pyInt (pyStrip s) = none → parse_year (some s) = PyVal.str "") ∧
    parse_year (some "2023") = PyVal.int 2023 ∧
    parse_year (some "abc") = PyVal.str "" ∧
    parse_year (some "") = PyVal.str "" := by
  refine ⟨rfl, ?_, ?_, ?_, by decide, by decide, by decide⟩
  · intro h
    simp [parse_year, h]
  · intro h
    by_cases he : pyStrip s = ""
    · rw [he] at h
      have hnone : pyInt "" = none := rfl
      rw [hnone] at h
      cases h
    · simp [parse_year, he, h]
  · intro h
    by_cases he : pyStrip s = ""
    · simp [parse_year, he]
    · simp [parse_year, he, h]

/-- C8, witness: a padded numeric string parses after trimming. -/
theorem parse_year_total_witness : parse_year (some " 42 ") = PyVal.int 42 :=
  (parse_year_total " 42 " 42).2.2.1 (by decide)

theorem tryFormats_none (fs : List String) (s : String)
    (h : ∀ f ∈ fs, strptime f s = none) : tryFormats fs s = none := by
  induction fs with
  | nil => rfl
  | cons f fs ih =>
    unfold tryFormats
    rw [h f (List.mem_cons_self _ _)]
    exact ih (fun g hg => h g (List.mem_cons_of_mem _ hg))

theorem tryFormats_some (fs : List String) (f s : String) (dt : PyDateTime)
    (hf : f ∈ fs) (hst : strptime f s = some dt) :
    ∃ e, tryFormats fs s = some e := by
  induction fs with
  | nil => simp at hf
  | cons g fs ih =>
    unfold tryFormats
    cases hg : strptime g s with
    | some d0 => exact ⟨d0, rfl⟩
    | none =>
      rcases List.mem_cons.mp hf with heq | htl
      · subst heq; rw [hg] at hst; cases hst
      · exact ih htl

theorem tryFormats_mem (fs : List String) (s : String) (e : PyDateTime)
    (h : tryFormats fs s = some e) : ∃ g ∈ fs, strptime g s = some e := by
  induction fs with
  | nil => cases h
  | cons g fs ih =>
    unfold tryFormats at h
    cases hg : strptime g s with
    | some d0 =>
      rw [hg] at h
      exact ⟨g, List.mem_cons_self _ _, hg.trans h⟩
    | none =>
      rw [hg] at h
      obtain ⟨g2, hg2, hst2⟩ := ih h
      exact ⟨g2, List.mem_cons_of_mem _ hg2, hst2⟩

theorem strptime_fields (f s : String) (dt : PyDateTime)
    (h : strptime f s = some dt) :
    dt.hour = 0 ∧ dt.minute = 0 ∧ dt.second = 0 ∧ dt.tzUtc = false := by
  unfold strptime at h
  split at h
  · split at h
    · cases h
      exact ⟨rfl, rfl, rfl, rfl⟩
    · cases h
  · cases h

theorem strptime_empty_none (f : String) (hf : f ∈ pyFormats) :
    strptime f "" = none := by
  fin_cases hf <;> rfl

/-- C4: `parse_date` tries exactly the six patterns `%Y-%m-%d`,
`%Y/%m/%d`, `%m/%d/%Y`, `%d/%m/%Y`, `%B %d, %Y`, `%b %d, %Y` in that
order; if none matches the stripped input the result is the
empty-string sentinel, and if any matches, the result is the first
successful parse, a UTC datetime at midnight. In particular
`"13/01/2024"` fails `%m/%d/%Y` (month 13 is out of range) and parses
as day 13, month 1 via `%d/%m/%Y`, while the ambiguous `"01/02/2024"`
is biased month-first to January 2; each of the six documented formats
parses its sample string to the same calendar date. -/
theorem parse_date_first_success (s f : String) (dt : PyDateTime) :
    pyFormats = ["%Y-%m-%d", "%Y/%m/%d", "%m/%d/%Y", "%d/%m/%Y",
      "%B %d, %Y", "%b %d, %Y"] ∧
    ((∀ g ∈ pyFormats, strptime g (pyStrip s) = none) →
      parse_date (some s) = PyVal.str "") ∧
    (f ∈ pyFormats → strptime f (pyStrip s) = some dt →
      ∃ e, parse_date (some s) = PyVal.date e ∧ e.hour = 0 ∧ e.minute = 0 ∧
        e.second = 0 ∧ e.tzUtc = true) ∧
    strptime "%m/%d/%Y" "13/01/2024" = none ∧
    parse_date (some "13/01/2024") = PyVal.date ⟨2024, 1, 13, 0, 0, 0, true⟩ ∧
    parse_date (some "01/02/2024") = PyVal.date ⟨2024, 1, 2, 0, 0, 0, true⟩ ∧
    parse_date (some "2024-01-15") = PyVal.date ⟨2024, 1, 15, 0, 0, 0, true⟩ ∧
    parse_date (some "2024/01/15") = PyVal.date ⟨2024, 1, 15, 0, 0, 0, true⟩ ∧
    parse_date (some "01/15/2024") = PyVal.date ⟨2024, 1, 15, 0, 0, 0, true⟩ ∧
    parse_date (some "15/01/2024") = PyVal.date ⟨2024, 1, 15, 0, 0, 0, true⟩ ∧
    parse_date (some "January 15, 2024") = PyVal.date ⟨2024, 1, 15, 0, 0, 0, true⟩ ∧
    parse_date (some "Jan 15, 2024") = PyVal.date ⟨2024, 1, 15, 0, 0, 0, true⟩ ∧
    parse_date none = PyVal.str "" ∧
    parse_date (some "") = PyVal.str "" := by
  refine ⟨rfl, ?_, ?_, by decide, by decide, by decide, by decide, by decide,
    by decide, by decide, by decide, by decide, rfl, by decide⟩
  · intro h
    have ht := tryFormats_none pyFormats (pyStrip s) h
    by_cases he : pyStrip s = "" <;> simp [parse_date, he, ht]
  · intro hf hst
    have he : ¬ pyStrip s = "" := by
      intro he
      rw [he, strptime_empty_none f hf] at hst
      cases hst
    obtain ⟨e0, he0⟩ := tryFormats_some pyFormats f (pyStrip s) dt hf hst
    obtain ⟨g, hg, hstg⟩ := tryFormats_mem pyFormats (pyStrip s) e0 he0
    obtain ⟨hh, hm2, hs2, _⟩ := strptime_fields g (pyStrip s) e0 hstg
    refine ⟨{ e0 with tzUtc := true }, ?_, hh, hm2, hs2, rfl⟩
    simp [parse_date, he, he0]

/-- C4, witness: a string matching none of the six formats degrades to
the empty-string sentinel via the general part of the theorem. -/
theorem parse_date_first_success_witness : parse_date (some "nope") = PyVal.str "" :=
  (parse_date_first_success "nope" "%Y-%m-%d" ⟨1900, 1, 1, 0, 0, 0, false⟩).2.1
    (by decide)
